import Mathlib

set_option maxRecDepth 100000

/-!
# Verification of the BN254 Groth16 verifier and minting gate

Shallow embedding of `src/stylus-contracts/src/lib.rs`.  Byte arrays
(`[u8; N]`, `Vec<u8>`) are modelled as `List Nat` whose entries are meant
to lie below 256 (stated as hypotheses where it matters); `U256` values
are modelled as `Nat` with explicit `% 2^256` on the operations that can
wrap.  Fallible Rust functions returning `Result<_, Vec<u8>>` are modelled
with `Except Err _`, with one `Err` constructor per distinct error string
of the source.  The raw EVM calls performed through `RawCall` are modelled
by an uninterpreted function `RawCallFn` from the precompile address and
the calldata to `Option` of the returned bytes (`none` models a reverting
call).
-/

deriving instance DecidableEq for Except

namespace FheVesting

/-- One constructor per distinct error message produced by the source. -/
inductive Err where
  | invalidProofLength
  | invalidVkLength
  | invalidGammaAbcLen
  | invalidGammaAbcPoints
  | ecAddFailed
  | invalidEcAddResult
  | ecMulFailed
  | invalidEcMulResult
  | pairingFailed
  | wrongInputCount
  | invalidInputCount
  | balanceMismatch
  | nullifierReuse
  | staleProof
  | futureTimestamp
  | invalidProof
  | ccipFailed
  deriving DecidableEq, Repr

/-- Model of `RawCall::new(host).call(addr, calldata)`: the precompile
address (its last byte) and the calldata determine an optional response;
`none` models a reverted call. -/
def RawCallFn : Type := Nat → List Nat → Option (List Nat)

/-- Model of `G1Point = [u8; 64]` of the source: 32 bytes x followed by 32 bytes y,
big-endian. -/
abbrev G1Point := List Nat

/-- Model of `G2Point = [u8; 128]` of the source. -/
abbrev G2Point := List Nat

/-- Model of `Scalar = [u8; 32]` of the source. -/
abbrev Scalar := List Nat

/-- Well-formed byte string of length `n`: every entry is a byte. -/
def WfBytes (n : Nat) (l : List Nat) : Prop :=
  l.length = n ∧ ∀ d ∈ l, d < 256

instance (n : Nat) (l : List Nat) : Decidable (WfBytes n l) := by
  unfold WfBytes; infer_instance

/-- Model of `PrecompileBackend::is_g1_zero`. -/
def is_g1_zero (point : List Nat) : Bool :=
  point.all (fun b => b == 0)

/-- Model of `PrecompileBackend::is_scalar_zero`. -/
def is_scalar_zero (scalar : List Nat) : Bool :=
  scalar.all (fun b => b == 0)

/-- The BN254 base-field prime, big-endian, as written in
`negate_g1_point` (`p_bytes`). -/
def pBytes : List Nat :=
  [0x30, 0x64, 0x4e, 0x72, 0xe1, 0x31, 0xa0, 0x29,
   0xb8, 0x50, 0x45, 0xb6, 0x81, 0x81, 0x58, 0x5d,
   0x97, 0x81, 0x6a, 0x91, 0x68, 0x71, 0xca, 0x8d,
   0x3c, 0x20, 0x8c, 0x16, 0xd8, 0x7c, 0xfd, 0x47]

/-- The little-endian digit-wise subtraction-with-borrow loop of
`negate_g1_point` (the source iterates `i` from 31 down to 0, i.e. from
the least-significant byte; here the lists are least-significant first).
In the source `p_bytes[i] as u64 - borrow` never underflows because every
byte of `p_bytes` is nonzero, which matches truncated `Nat` subtraction. -/
def sbbLE : List Nat → List Nat → Nat → List Nat
  | p :: ps, y :: ys, borrow =>
      let p_val := p - borrow
      let y_val := y
      if y_val ≤ p_val then (p_val - y_val) :: sbbLE ps ys 0
      else (256 + p_val - y_val) :: sbbLE ps ys 1
  | _, _, _ => []

/-- Big-endian subtraction with borrow, as performed byte-by-byte in
`negate_g1_point`. -/
def sub_be (ps ys : List Nat) : List Nat :=
  (sbbLE ps.reverse ys.reverse 0).reverse

/-- Model of `PrecompileBackend::negate_g1_point`. -/
def negate_g1_point (point : G1Point) : G1Point :=
  if is_g1_zero point then point
  else point.take 32 ++ sub_be pBytes (point.drop 32)

/-- Model of `PrecompileBackend::ec_add` (EC_ADD_PRECOMPILE = 0x06). -/
def ec_add (rawCall : RawCallFn) (a b : G1Point) : Except Err G1Point :=
  if is_g1_zero a then .ok b
  else if is_g1_zero b then .ok a
  else
    match rawCall 6 (a ++ b) with
    | none => .error .ecAddFailed
    | some result =>
        if result.length ≠ 64 then .error .invalidEcAddResult
        else .ok result

/-- Model of `PrecompileBackend::ec_mul` (EC_MUL_PRECOMPILE = 0x07). -/
def ec_mul (rawCall : RawCallFn) (scalar : Scalar) (point : G1Point) :
    Except Err G1Point :=
  if is_scalar_zero scalar || is_g1_zero point then .ok (List.replicate 64 0)
  else
    match rawCall 7 (point ++ scalar) with
    | none => .error .ecMulFailed
    | some result =>
        if result.length ≠ 64 then .error .invalidEcMulResult
        else .ok result

/-- Model of `struct ZKProof`. -/
structure ZKProof where
  a : G1Point
  b : G2Point
  c : G1Point
  deriving DecidableEq, Repr

/-- Model of `struct VerifyingKey`. -/
structure VerifyingKey where
  alpha_g1 : G1Point
  beta_g2 : G2Point
  gamma_g2 : G2Point
  delta_g2 : G2Point
  gamma_abc_g1 : List G1Point
  deriving DecidableEq, Repr

/-- Model of `ZKProof::deserialize`. -/
def ZKProof.deserialize (data : List Nat) : Except Err ZKProof :=
  if data.length ≠ 256 then .error .invalidProofLength
  else
    .ok { a := data.take 64
          b := (data.drop 64).take 128
          c := (data.drop 192).take 64 }

/-- Model of `u32::from_be_bytes` on four bytes. -/
def u32_from_be (b0 b1 b2 b3 : Nat) : Nat :=
  ((b0 * 256 + b1) * 256 + b2) * 256 + b3

/-- The point-list loop of `VerifyingKey::deserialize`: read `cnt` G1
points of 64 bytes each, starting at `offset`. -/
def readPoints (data : List Nat) : Nat → Nat → List G1Point
  | _, 0 => []
  | offset, cnt + 1 =>
      ((data.drop offset).take 64) :: readPoints data (offset + 64) cnt

/-- Model of `VerifyingKey::deserialize`. -/
def VerifyingKey.deserialize (data : List Nat) : Except Err VerifyingKey :=
  if data.length < 452 then .error .invalidVkLength
  else
    let alpha_g1 := data.take 64
    let beta_g2 := (data.drop 64).take 128
    let gamma_g2 := (data.drop 192).take 128
    let delta_g2 := (data.drop 320).take 128
    if data.length < 448 + 4 then .error .invalidGammaAbcLen
    else
      let gamma_abc_len :=
        u32_from_be (data.getD 448 0) (data.getD 449 0)
          (data.getD 450 0) (data.getD 451 0)
      if data.length < 452 + gamma_abc_len * 64 then
        .error .invalidGammaAbcPoints
      else
        .ok { alpha_g1 := alpha_g1
              beta_g2 := beta_g2
              gamma_g2 := gamma_g2
              delta_g2 := delta_g2
              gamma_abc_g1 := readPoints data 452 gamma_abc_len }

/-- The `vk_x` accumulation loop of `ZKMintContract::groth16_verify`:
`for (i, input) in public_inputs.iter().enumerate() { if i + 1 <
vk.gamma_abc_g1.len() { ... } }`, with the enumeration index `i` made
explicit. -/
def vk_x_loop (rawCall : RawCallFn) (gamma_abc_g1 : List G1Point) :
    List Scalar → Nat → G1Point → Except Err G1Point
  | [], _, vk_x => .ok vk_x
  | input :: rest, i, vk_x =>
      if i + 1 < gamma_abc_g1.length then
        match ec_mul rawCall input (gamma_abc_g1.getD (i + 1) []) with
        | .error e => .error e
        | .ok gamma_abc_term =>
            match ec_add rawCall vk_x gamma_abc_term with
            | .error e => .error e
            | .ok vk_x2 => vk_x_loop rawCall gamma_abc_g1 rest (i + 1) vk_x2
      else vk_x_loop rawCall gamma_abc_g1 rest (i + 1) vk_x

/-- The interpretation of the pairing precompile's response at the end of
`groth16_verify`: `Ok(result.len() == 32 && result[31] == 1)`. -/
def pairing_result_to_bool (result : List Nat) : Bool :=
  decide (result.length = 32) && decide (result.getD 31 0 = 1)

/-- Model of `ZKMintContract::groth16_verify` (EC_PAIRING_PRECOMPILE = 0x08).
The
768-byte pairing calldata is the concatenation written slice by slice in
the source. -/
def groth16_verify (rawCall : RawCallFn) (proof : ZKProof)
    (vk : VerifyingKey) (public_inputs : List Scalar) : Except Err Bool :=
  if public_inputs.length + 1 ≠ vk.gamma_abc_g1.length then
    .error .wrongInputCount
  else
    match vk_x_loop rawCall vk.gamma_abc_g1 public_inputs 0
        (vk.gamma_abc_g1.getD 0 []) with
    | .error e => .error e
    | .ok vk_x =>
        let neg_alpha := negate_g1_point vk.alpha_g1
        let neg_vk_x := negate_g1_point vk_x
        let neg_c := negate_g1_point proof.c
        let calldata :=
          proof.a ++ proof.b ++ neg_alpha ++ vk.beta_g2 ++
            neg_vk_x ++ vk.gamma_g2 ++ neg_c ++ vk.delta_g2
        match rawCall 8 calldata with
        | none => .error .pairingFailed
        | some result => .ok (pairing_result_to_bool result)

/-- Model of `U256::to_be_bytes`: the 32 big-endian bytes of a `U256` value. -/
def toBeBytes32 (n : Nat) : List Nat :=
  (List.range 32).map (fun i => n / 256 ^ (31 - i) % 256)

/-- Model of the `sol_storage!` block declaring `ZKMintContract` storage.
Mappings become total functions, `U256` becomes `Nat`, `address`
becomes `Nat`. -/
structure ContractState where
  owner : Nat
  next_token_id : Nat
  token_owners : Nat → Nat
  token_balances : Nat → Nat
  token_approvals : Nat → Nat
  operator_approvals : Nat → Nat → Bool
  used_nullifiers : Nat → Bool
  min_required_balance : Nat

/-- The call environment of `mint_with_zk_proof` / `verify_proof`: the
raw-call behaviour of the EVM precompiles, the compiled-in verifying key
(`get_verifying_key()` lives in the generated `verifying_key.rs`; per the
design it is a fixed deployment constant, so it is carried here as an
opaque environment value), the block timestamp, and the outcome of the
external CCIP `send_message` call (`none` models a reverting call, mapped
to a dedicated error; `some id` its returned message id). -/
structure Env where
  rawCall : RawCallFn
  vk : VerifyingKey
  block_timestamp : Nat
  ccip : Option Nat

/-- Model of `const MAX_PROOF_AGE: u64 = 300`. -/
def MAX_PROOF_AGE : Nat := 300

/-- Model of `ZKMintContract::verify_proof`. -/
def verify_proof (env : Env) (proof_data : List Nat)
    (public_inputs : List Nat) : Except Err Bool :=
  match ZKProof.deserialize proof_data with
  | .error e => .error e
  | .ok proof =>
      let scalar_inputs := public_inputs.map toBeBytes32
      groth16_verify env.rawCall proof env.vk scalar_inputs

/-- Model of `ZKMintContract::mint_with_zk_proof`.  Rust early returns become
nested branches; each error leaves the state component untouched, and the
storage writes of the success path are performed, in source order, only
at the end. -/
def mint_with_zk_proof (env : Env) (s : ContractState) (toAddr : Nat)
    (proof_data : List Nat) (public_inputs : List Nat) :
    Except Err Nat × ContractState :=
  if public_inputs.length ≠ 6 then (.error .invalidInputCount, s)
  else
    let nullifier := public_inputs.getD 0 0
    let min_balance_from_proof := public_inputs.getD 1 0
    let proof_timestamp := public_inputs.getD 4 0
    if min_balance_from_proof ≠ s.min_required_balance then
      (.error .balanceMismatch, s)
    else if s.used_nullifiers nullifier then (.error .nullifierReuse, s)
    else
      let current_time := env.block_timestamp
      let max_age := MAX_PROOF_AGE
      if current_time > proof_timestamp then
        if current_time - proof_timestamp > max_age then
          (.error .staleProof, s)
        else
          match verify_proof env proof_data public_inputs with
          | .error e => (.error e, s)
          | .ok false => (.error .invalidProof, s)
          | .ok true =>
              match env.ccip with
              | none => (.error .ccipFailed, s)
              | some _ =>
                  let s1 := { s with used_nullifiers :=
                    fun k => if k = nullifier then true
                             else s.used_nullifiers k }
                  let token_id := s1.next_token_id
                  let s2 := { s1 with token_owners :=
                    fun t => if t = token_id then toAddr
                             else s1.token_owners t }
                  let s3 := { s2 with token_balances :=
                    fun a => if a = toAddr then
                               (s2.token_balances toAddr + 1) % 2 ^ 256
                             else s2.token_balances a }
                  let s4 := { s3 with next_token_id :=
                    (token_id + 1) % 2 ^ 256 }
                  (.ok token_id, s4)
      else (.error .futureTimestamp, s)

/-! ## Generic list helpers -/

theorem getD_take_eq (l : List Nat) (n i : Nat) (h : i < n) :
    (l.take n).getD i 0 = l.getD i 0 := by
  rw [List.getD_eq_getElem?_getD, List.getD_eq_getElem?_getD,
    List.getElem?_take]
  simp [h]

theorem getD_drop_eq (l : List Nat) (n i : Nat) :
    (l.drop n).getD i 0 = l.getD (n + i) 0 := by
  rw [List.getD_eq_getElem?_getD, List.getD_eq_getElem?_getD,
    List.getElem?_drop]

theorem is_g1_zero_iff (l : List Nat) :
    is_g1_zero l = true ↔ ∀ d ∈ l, d = 0 := by
  simp [is_g1_zero]

theorem is_scalar_zero_iff (l : List Nat) :
    is_scalar_zero l = true ↔ ∀ d ∈ l, d = 0 := by
  simp [is_scalar_zero]

theorem is_g1_zero_replicate : is_g1_zero (List.replicate 64 0) = true := by
  decide

/-- A length-64 all-zero byte string is the identity encoding. -/
theorem eq_replicate_of_g1_zero {l : List Nat} (hlen : l.length = 64)
    (h : is_g1_zero l = true) : l = List.replicate 64 0 :=
  List.eq_replicate_iff.mpr ⟨hlen, (is_g1_zero_iff l).mp h⟩

/-! ## C7: proof deserialization -/

/-- C7: `ZKProof.deserialize` fails exactly on byte strings whose length
is not 256; on every 256-byte input it succeeds, and the parsed `a`, `b`,
`c` are the slices `bytes[0:64]`, `bytes[64:192]`, `bytes[192:256]`, with
no further validation. -/
theorem proof_deserialize_spec (data : List Nat) :
    ((ZKProof.deserialize data).isOk ↔ data.length = 256) ∧
    (data.length = 256 →
      ∃ proof, ZKProof.deserialize data = .ok proof ∧
        proof.a.length = 64 ∧ proof.b.length = 128 ∧ proof.c.length = 64 ∧
        (∀ i < 64, proof.a.getD i 0 = data.getD i 0) ∧
        (∀ i < 128, proof.b.getD i 0 = data.getD (64 + i) 0) ∧
        (∀ i < 64, proof.c.getD i 0 = data.getD (192 + i) 0)) := by
  constructor
  · unfold ZKProof.deserialize
    split
    next h => simp [Except.isOk, Except.toBool, h]
    next h => simp [Except.isOk, Except.toBool]; omega
  · intro hlen
    refine ⟨⟨data.take 64, (data.drop 64).take 128, (data.drop 192).take 64⟩,
      by unfold ZKProof.deserialize; rw [if_neg (by omega)],
      ?_, ?_, ?_, ?_, ?_, ?_⟩
    · simp [hlen]
    · simp [hlen]
    · simp [hlen]
    · intro i hi
      exact getD_take_eq data 64 i hi
    · intro i hi
      rw [getD_take_eq _ 128 i hi, getD_drop_eq]
    · intro i hi
      rw [getD_take_eq _ 64 i hi, getD_drop_eq]

/-- Witness for C7 at a concrete 256-byte input. -/
theorem proof_deserialize_spec_witness :
    ((ZKProof.deserialize (List.replicate 256 7)).isOk ↔
      (List.replicate 256 7 : List Nat).length = 256) ∧
    ((List.replicate 256 7 : List Nat).length = 256 →
      ∃ proof, ZKProof.deserialize (List.replicate 256 7) = .ok proof ∧
        proof.a.length = 64 ∧ proof.b.length = 128 ∧ proof.c.length = 64 ∧
        (∀ i < 64, proof.a.getD i 0 = (List.replicate 256 7).getD i 0) ∧
        (∀ i < 128,
          proof.b.getD i 0 = (List.replicate 256 7).getD (64 + i) 0) ∧
        (∀ i < 64,
          proof.c.getD i 0 = (List.replicate 256 7).getD (192 + i) 0)) :=
  proof_deserialize_spec (List.replicate 256 7)

/-! ## C9: identity short-circuits of the arithmetic backend -/

/-- C9: `ec_add` and `ec_mul` short-circuit on the all-zero identity
encoding and the zero scalar: `add(identity, P) = P`,
`add(P, identity) = P`, `scalarMul(0, P) = identity`,
`scalarMul(s, identity) = identity`.  The backend `rawCall` is
universally quantified, so the result involves no delegated call (the
witness instantiates it with an always-reverting backend). -/
theorem ec_identity_short_circuit (rawCall : RawCallFn) (P : G1Point)
    (s : Scalar) (hP : WfBytes 64 P) :
    ec_add rawCall (List.replicate 64 0) P = .ok P ∧
    ec_add rawCall P (List.replicate 64 0) = .ok P ∧
    ec_mul rawCall (List.replicate 32 0) P = .ok (List.replicate 64 0) ∧
    ec_mul rawCall s (List.replicate 64 0) = .ok (List.replicate 64 0) := by
  refine ⟨?_, ?_, ?_, ?_⟩
  · unfold ec_add
    rw [is_g1_zero_replicate]
    simp
  · unfold ec_add
    rcases h : is_g1_zero P with hf | ht
    · rw [is_g1_zero_replicate]
      simp
    · rw [eq_replicate_of_g1_zero hP.1 h, is_g1_zero_replicate]
      simp
  · unfold ec_mul
    have : is_scalar_zero (List.replicate 32 0) = true := by decide
    rw [this]
    simp
  · unfold ec_mul
    rw [is_g1_zero_replicate]
    simp

/-- Witness for C9: a concrete point and scalar, with an always-reverting
backend (so a delegated call would necessarily surface as an error). -/
theorem ec_identity_short_circuit_witness :
    WfBytes 64 (List.replicate 64 1) ∧
    (ec_add (fun _ _ => none) (List.replicate 64 0) (List.replicate 64 1) =
        .ok (List.replicate 64 1) ∧
      ec_add (fun _ _ => none) (List.replicate 64 1) (List.replicate 64 0) =
        .ok (List.replicate 64 1) ∧
      ec_mul (fun _ _ => none) (List.replicate 32 0) (List.replicate 64 1) =
        .ok (List.replicate 64 0) ∧
      ec_mul (fun _ _ => none) (List.replicate 32 3) (List.replicate 64 0) =
        .ok (List.replicate 64 0)) :=
  ⟨by decide,
    ec_identity_short_circuit (fun _ _ => none) (List.replicate 64 1)
      (List.replicate 32 3) (by decide)⟩

/-! ## C8 and C10: verifying-key deserialization -/

theorem getD_append_left (l m : List Nat) (i : Nat) (h : i < l.length) :
    (l ++ m).getD i 0 = l.getD i 0 := by
  rw [List.getD_eq_getElem?_getD, List.getD_eq_getElem?_getD,
    List.getElem?_append]
  simp [h]

theorem readPoints_length (data : List Nat) (cnt : Nat) :
    ∀ offset, (readPoints data offset cnt).length = cnt := by
  induction cnt with
  | zero => intro offset; rfl
  | succ n ih =>
      intro offset
      simp only [readPoints, List.length_cons, ih]

theorem readPoints_getD (data : List Nat) (cnt : Nat) :
    ∀ offset j, j < cnt →
      (readPoints data offset cnt).getD j [] =
        (data.drop (offset + 64 * j)).take 64 := by
  induction cnt with
  | zero => intro offset j hj; omega
  | succ n ih =>
      intro offset j hj
      match j with
      | 0 => simp [readPoints]
      | j' + 1 =>
          have := ih (offset + 64) j' (by omega)
          simp only [readPoints, List.getD_cons_succ, this]
          ring_nf

theorem readPoints_append (data extra : List Nat) (cnt : Nat) :
    ∀ offset, offset + 64 * cnt ≤ data.length →
      readPoints (data ++ extra) offset cnt = readPoints data offset cnt := by
  induction cnt with
  | zero => intro offset _; rfl
  | succ n ih =>
      intro offset h
      simp only [readPoints]
      rw [List.drop_append_of_le_length (by omega),
        List.take_append_of_le_length (by simp; omega),
        ih (offset + 64) (by omega)]

/-- The count field parsed at offset 448, as `VerifyingKey.deserialize`
reads it. -/
def vkCount (data : List Nat) : Nat :=
  u32_from_be (data.getD 448 0) (data.getD 449 0) (data.getD 450 0)
    (data.getD 451 0)

theorem vkCount_eq (data : List Nat) :
    u32_from_be (data.getD 448 0) (data.getD 449 0) (data.getD 450 0)
      (data.getD 451 0) = vkCount data := rfl

/-- The success form of `VerifyingKey.deserialize` when the buffer is
long enough for the declared point count. -/
theorem vk_deserialize_ok (data : List Nat)
    (h : 452 + vkCount data * 64 ≤ data.length) :
    VerifyingKey.deserialize data =
      .ok ⟨data.take 64, (data.drop 64).take 128, (data.drop 192).take 128,
        (data.drop 320).take 128, readPoints data 452 (vkCount data)⟩ := by
  unfold VerifyingKey.deserialize
  rw [vkCount_eq]
  rw [if_neg (by omega), if_neg (by omega), if_neg (by omega)]

/-- C8: `VerifyingKey.deserialize` fails when the buffer is shorter than
452 bytes, or when fewer than `count * 64` bytes remain after the 4-byte
big-endian count field at offset 448; on every exact-fit buffer of length
`452 + 64 * count` it succeeds, with `alpha_g1 = bytes[0:64]`,
`beta_g2 = bytes[64:192]`, `gamma_g2 = bytes[192:320]`,
`delta_g2 = bytes[320:448]` and `count` parsed 64-byte G1 points
following at offset 452. -/
theorem vk_deserialize_spec (data : List Nat) :
    (data.length < 452 →
      VerifyingKey.deserialize data = .error .invalidVkLength) ∧
    (452 ≤ data.length → data.length < 452 + vkCount data * 64 →
      VerifyingKey.deserialize data = .error .invalidGammaAbcPoints) ∧
    (data.length = 452 + vkCount data * 64 →
      ∃ vk, VerifyingKey.deserialize data = .ok vk ∧
        vk.alpha_g1.length = 64 ∧
        (∀ i < 64, vk.alpha_g1.getD i 0 = data.getD i 0) ∧
        vk.beta_g2.length = 128 ∧
        (∀ i < 128, vk.beta_g2.getD i 0 = data.getD (64 + i) 0) ∧
        vk.gamma_g2.length = 128 ∧
        (∀ i < 128, vk.gamma_g2.getD i 0 = data.getD (192 + i) 0) ∧
        vk.delta_g2.length = 128 ∧
        (∀ i < 128, vk.delta_g2.getD i 0 = data.getD (320 + i) 0) ∧
        vk.gamma_abc_g1.length = vkCount data ∧
        (∀ j < vkCount data,
          (vk.gamma_abc_g1.getD j []).length = 64 ∧
          ∀ i < 64, (vk.gamma_abc_g1.getD j []).getD i 0 =
            data.getD (452 + 64 * j + i) 0)) := by
  refine ⟨?_, ?_, ?_⟩
  · intro h
    unfold VerifyingKey.deserialize
    rw [if_pos h]
  · intro h1 h2
    unfold VerifyingKey.deserialize
    rw [vkCount_eq]
    rw [if_neg (by omega), if_neg (by omega)]
    rw [if_pos (by omega)]
  · intro hlen
    refine ⟨⟨data.take 64, (data.drop 64).take 128, (data.drop 192).take 128,
      (data.drop 320).take 128, readPoints data 452 (vkCount data)⟩,
      ?_, ?_, ?_, ?_, ?_, ?_, ?_, ?_, ?_, ?_, ?_⟩
    · exact vk_deserialize_ok data (by omega)
    · simp; omega
    · intro i hi; exact getD_take_eq data 64 i hi
    · simp; omega
    · intro i hi; rw [getD_take_eq _ 128 i hi, getD_drop_eq]
    · simp; omega
    · intro i hi; rw [getD_take_eq _ 128 i hi, getD_drop_eq]
    · simp; omega
    · intro i hi; rw [getD_take_eq _ 128 i hi, getD_drop_eq]
    · exact readPoints_length data (vkCount data) 452
    · intro j hj
      rw [readPoints_getD data (vkCount data) 452 j hj]
      constructor
      · simp; omega
      · intro i hi
        rw [getD_take_eq _ 64 i hi, getD_drop_eq]

/-- Witness for C8: a buffer declaring 2 points but holding bytes for
only 1 is rejected, and a concrete exact-fit buffer with count 1
parses. -/
theorem vk_deserialize_spec_witness :
    VerifyingKey.deserialize (List.replicate 448 0 ++ [0, 0, 0, 2] ++
        List.replicate 64 5) = .error .invalidGammaAbcPoints ∧
    ∃ vk, VerifyingKey.deserialize (List.replicate 448 0 ++ [0, 0, 0, 1] ++
        List.replicate 64 5) = .ok vk ∧ vk.gamma_abc_g1.length = 1 := by
  have h2 := (vk_deserialize_spec (List.replicate 448 0 ++ [0, 0, 0, 2] ++
    List.replicate 64 5)).2.1 (by decide) (by decide)
  have h := vk_deserialize_spec
    (List.replicate 448 0 ++ [0, 0, 0, 1] ++ List.replicate 64 5)
  refine ⟨h2, ?_⟩
  obtain ⟨vk, hvk, hrest⟩ := h.2.2 (by decide)
  exact ⟨vk, hvk, by
    have := hrest.2.2.2.2.2.2.2.2.1
    rw [this]; decide⟩

/-- C10: `VerifyingKey.deserialize` succeeds on every buffer whose length
is at least `452 + 64 * count` for the count parsed at offset 448, and
bytes beyond that prefix are ignored: appending trailing data to an
exact-fit buffer parses to the same key instead of being rejected. -/
theorem vk_deserialize_trailing (data extra : List Nat) :
    (452 + vkCount data * 64 ≤ data.length →
      (VerifyingKey.deserialize data).isOk) ∧
    (data.length = 452 + vkCount data * 64 →
      VerifyingKey.deserialize (data ++ extra) =
        VerifyingKey.deserialize data) := by
  constructor
  · intro h
    rw [vk_deserialize_ok data h]
    rfl
  · intro hlen
    have hcnt : vkCount (data ++ extra) = vkCount data := by
      unfold vkCount
      rw [getD_append_left _ _ _ (by omega), getD_append_left _ _ _ (by omega),
        getD_append_left _ _ _ (by omega), getD_append_left _ _ _ (by omega)]
    have htake : ∀ n : Nat, n + 128 ≤ 452 →
        ((data ++ extra).drop n).take 128 = (data.drop n).take 128 := by
      intro n hn
      rw [List.drop_append_of_le_length (by omega)]
      exact List.take_append_of_le_length (by simp; omega)
    rw [vk_deserialize_ok data (by omega),
      vk_deserialize_ok (data ++ extra) (by rw [hcnt]; simp; omega)]
    rw [hcnt, List.take_append_of_le_length (by omega),
      htake 64 (by omega), htake 192 (by omega), htake 320 (by omega),
      readPoints_append data extra (vkCount data) 452 (by omega)]

/-- Witness for C10: the count-1 exact-fit buffer with three trailing
bytes still parses, to the same key. -/
theorem vk_deserialize_trailing_witness :
    (VerifyingKey.deserialize (List.replicate 448 0 ++ [0, 0, 0, 1] ++
      List.replicate 64 5)).isOk ∧
    VerifyingKey.deserialize ((List.replicate 448 0 ++ [0, 0, 0, 1] ++
        List.replicate 64 5) ++ [9, 9, 9]) =
      VerifyingKey.deserialize (List.replicate 448 0 ++ [0, 0, 0, 1] ++
        List.replicate 64 5) := by
  have h := vk_deserialize_trailing
    (List.replicate 448 0 ++ [0, 0, 0, 1] ++ List.replicate 64 5) [9, 9, 9]
  exact ⟨h.1 (by decide), h.2 (by decide)⟩

/-! ## C4: negation of G1 points

The borrow loop of `negate_g1_point` is analysed through the value map
`leVal` (base-256 value of a least-significant-first digit list). -/

/-- Base-256 value of a little-endian digit list. -/
def leVal : List Nat → Nat
  | [] => 0
  | d :: ds => d + 256 * leVal ds

theorem sbbLE_length : ∀ (ps ys : List Nat) (b : Nat),
    ps.length = ys.length → (sbbLE ps ys b).length = ps.length := by
  intro ps
  induction ps with
  | nil => intro ys b h; cases ys <;> simp_all [sbbLE]
  | cons p ps ih =>
      intro ys b h
      cases ys with
      | nil => simp at h
      | cons y ys =>
          simp only [sbbLE]
          split <;> simp [ih ys _ (by simpa using h)]

theorem sbbLE_digits_lt : ∀ (ps ys : List Nat) (b : Nat),
    (∀ d ∈ ps, d < 256) → ∀ d ∈ sbbLE ps ys b, d < 256 := by
  intro ps
  induction ps with
  | nil => intro ys b _ d hd; cases ys <;> simp [sbbLE] at hd
  | cons p ps ih =>
      intro ys b hps d hd
      cases ys with
      | nil => simp [sbbLE] at hd
      | cons y ys =>
          have hp : p < 256 := hps p (List.mem_cons_self p ps)
          have hps' : ∀ d ∈ ps, d < 256 :=
            fun d hd => hps d (List.mem_cons_of_mem p hd)
          simp only [sbbLE] at hd
          split at hd <;> rcases List.mem_cons.mp hd with h | h
          · omega
          · exact ih ys 0 hps' d h
          · omega
          · exact ih ys 1 hps' d h

theorem leVal_lt (l : List Nat) (h : ∀ d ∈ l, d < 256) :
    leVal l < 256 ^ l.length := by
  induction l with
  | nil => simp [leVal]
  | cons d ds ih =>
      have hd : d < 256 := h d (List.mem_cons_self d ds)
      have hds := ih (fun x hx => h x (List.mem_cons_of_mem d hx))
      simp only [leVal, List.length_cons, pow_succ]
      have : 256 * leVal ds ≤ 256 * (256 ^ ds.length - 1) :=
        Nat.mul_le_mul_left 256 (by omega)
      have hpos : 1 ≤ 256 ^ ds.length := Nat.one_le_pow _ _ (by omega)
      omega

theorem leVal_inj : ∀ (l1 l2 : List Nat), l1.length = l2.length →
    (∀ d ∈ l1, d < 256) → (∀ d ∈ l2, d < 256) →
    leVal l1 = leVal l2 → l1 = l2 := by
  intro l1
  induction l1 with
  | nil => intro l2 h _ _ _; cases l2; rfl; simp at h
  | cons d ds ih =>
      intro l2 hlen h1 h2 hval
      cases l2 with
      | nil => simp at hlen
      | cons e es =>
          have hd : d < 256 := h1 d (List.mem_cons_self d ds)
          have he : e < 256 := h2 e (List.mem_cons_self e es)
          simp only [leVal] at hval
          have hde : d = e ∧ leVal ds = leVal es := by omega
          rw [hde.1,
            ih es (by simpa using hlen)
              (fun x hx => h1 x (List.mem_cons_of_mem d hx))
              (fun x hx => h2 x (List.mem_cons_of_mem e hx)) hde.2]

theorem leVal_eq_zero (l : List Nat) :
    leVal l = 0 ↔ ∀ d ∈ l, d = 0 := by
  induction l with
  | nil => simp [leVal]
  | cons d ds ih => simp only [leVal, List.mem_cons]; constructor
                    · intro h
                      have : d = 0 ∧ leVal ds = 0 := by omega
                      intro x hx
                      rcases hx with rfl | hx
                      · exact this.1
                      · exact ih.mp this.2 x hx
                    · intro h
                      have hd : d = 0 := h d (Or.inl rfl)
                      have : leVal ds = 0 :=
                        ih.mpr (fun x hx => h x (Or.inr hx))
                      omega

/-- Modular-uniqueness step for one digit of the borrow subtraction. -/
theorem emod_step (d A M : ℤ) (hM : 0 < M) (hd0 : 0 ≤ d) (hd : d < 256) :
    (d + 256 * A) % (256 * M) = d + 256 * (A % M) := by
  have hr0 : 0 ≤ A % M := Int.emod_nonneg A (ne_of_gt hM)
  have hrM : A % M < M := Int.emod_lt_of_pos A hM
  have h0 : 0 ≤ d + 256 * (A % M) := by positivity
  have h1 : d + 256 * (A % M) < 256 * M := by nlinarith
  have hmodeq : A % M ≡ A [ZMOD M] := Int.emod_emod_of_dvd A dvd_rfl
  have hmul : 256 * (A % M) ≡ 256 * A [ZMOD 256 * M] :=
    Int.ModEq.mul_left' hmodeq
  have hadd : d + 256 * (A % M) ≡ d + 256 * A [ZMOD 256 * M] :=
    Int.ModEq.add_left d hmul
  calc (d + 256 * A) % (256 * M)
      = (d + 256 * (A % M)) % (256 * M) := (hadd.symm : _)
    _ = d + 256 * (A % M) := Int.emod_eq_of_lt h0 h1

/-- The borrow loop computes the base-256 digits of
`(minuend - borrow - subtrahend) mod 256^n`, provided every minuend
digit is a nonzero byte (true of the field prime's bytes), which rules
out the `u64` underflow the source's `p_bytes[i] as u64 - borrow` would
otherwise hit. -/
theorem sbbLE_leVal : ∀ (ps ys : List Nat) (borrow : Nat),
    ps.length = ys.length → (∀ d ∈ ps, 1 ≤ d ∧ d < 256) →
    (∀ d ∈ ys, d < 256) → borrow ≤ 1 →
    (leVal (sbbLE ps ys borrow) : ℤ) =
      ((leVal ps : ℤ) - borrow - leVal ys) % (256 ^ ps.length) := by
  intro ps
  induction ps with
  | nil =>
      intro ys borrow hlen _ _ _
      have : ys = [] := by cases ys; rfl; simp at hlen
      subst this
      simp [sbbLE, leVal]
  | cons p ps ih =>
      intro ys borrow hlen hps hys hb
      cases ys with
      | nil => simp at hlen
      | cons y ys =>
          have hp : 1 ≤ p ∧ p < 256 := hps p (List.mem_cons_self p ps)
          have hy : y < 256 := hys y (List.mem_cons_self y ys)
          have hps' : ∀ d ∈ ps, 1 ≤ d ∧ d < 256 :=
            fun d hd => hps d (List.mem_cons_of_mem p hd)
          have hys' : ∀ d ∈ ys, d < 256 :=
            fun d hd => hys d (List.mem_cons_of_mem y hd)
          have hlen' : ps.length = ys.length := by simpa using hlen
          have hMpos : (0 : ℤ) < 256 ^ ps.length := by positivity
          simp only [sbbLE]
          split
          next ht =>
              have hdcast : (((p - borrow) - y : Nat) : ℤ) =
                  (p : ℤ) - borrow - y := by omega
              simp only [leVal, List.length_cons]
              push_cast
              rw [hdcast, ih ys 0 hlen' hps' hys' (by omega)]
              rw [pow_succ']
              rw [show (p : ℤ) + 256 * (leVal ps : ℤ) - borrow -
                  ((y : ℤ) + 256 * (leVal ys : ℤ)) =
                  ((p : ℤ) - borrow - y) +
                    256 * ((leVal ps : ℤ) - (leVal ys : ℤ)) from by ring]
              rw [emod_step _ _ _ hMpos (by omega) (by omega)]
              norm_num
          next hf =>
              have hdcast : ((256 + (p - borrow) - y : Nat) : ℤ) =
                  256 + (p : ℤ) - borrow - y := by omega
              simp only [leVal, List.length_cons]
              push_cast
              rw [hdcast, ih ys 1 hlen' hps' hys' (by omega)]
              rw [pow_succ']
              rw [show (p : ℤ) + 256 * (leVal ps : ℤ) - borrow -
                  ((y : ℤ) + 256 * (leVal ys : ℤ)) =
                  (256 + (p : ℤ) - borrow - y) +
                    256 * ((leVal ps : ℤ) - 1 - (leVal ys : ℤ)) from by
                    ring]
              rw [emod_step _ _ _ hMpos (by omega) (by omega)]
              ring_nf

theorem pBytes_rev_digits : ∀ d ∈ pBytes.reverse, 1 ≤ d ∧ d < 256 := by
  decide

theorem pBytes_rev_length : pBytes.reverse.length = 32 := by decide

theorem sub_be_length (ys : List Nat) (h : ys.length = 32) :
    (sub_be pBytes ys).length = 32 := by
  unfold sub_be
  rw [List.length_reverse,
    sbbLE_length _ _ 0 (by rw [pBytes_rev_length, List.length_reverse, h]),
    pBytes_rev_length]

theorem sub_be_digits (ys : List Nat) : ∀ d ∈ sub_be pBytes ys, d < 256 := by
  intro d hd
  unfold sub_be at hd
  rw [List.mem_reverse] at hd
  exact sbbLE_digits_lt _ _ 0 (fun x hx => (pBytes_rev_digits x hx).2) d hd

theorem sub_be_val (ys : List Nat) (hlen : ys.length = 32)
    (hdig : ∀ d ∈ ys, d < 256) :
    (leVal (sub_be pBytes ys).reverse : ℤ) =
      ((leVal pBytes.reverse : ℤ) - leVal ys.reverse) % (256 ^ 32) := by
  unfold sub_be
  rw [List.reverse_reverse]
  have h := sbbLE_leVal pBytes.reverse ys.reverse 0
    (by rw [pBytes_rev_length, List.length_reverse, hlen])
    pBytes_rev_digits
    (fun d hd => hdig d (List.mem_reverse.mp hd)) (by omega)
  rw [pBytes_rev_length] at h
  simpa using h

/-- The double big-endian subtraction `p - (p - y)` recovers `y` for every
32-byte `y` (including `y` with value at or above the prime, thanks to the
wrap-around modulo `256^32`). -/
theorem sub_be_invol (ys : List Nat) (hlen : ys.length = 32)
    (hdig : ∀ d ∈ ys, d < 256) :
    sub_be pBytes (sub_be pBytes ys) = ys := by
  have hs1len := sub_be_length ys hlen
  have hs1dig := sub_be_digits ys
  have hv1 := sub_be_val ys hlen hdig
  have hv2 := sub_be_val (sub_be pBytes ys) hs1len hs1dig
  have hyM : (leVal ys.reverse : ℤ) < 256 ^ 32 := by
    have := leVal_lt ys.reverse (fun d hd => hdig d (List.mem_reverse.mp hd))
    rw [List.length_reverse, hlen] at this
    exact_mod_cast this
  have hy0 : (0 : ℤ) ≤ (leVal ys.reverse : ℤ) := Int.natCast_nonneg _
  have hMpos : (0 : ℤ) < 256 ^ 32 := by positivity
  have hval : (leVal (sub_be pBytes (sub_be pBytes ys)).reverse : ℤ) =
      leVal ys.reverse := by
    rw [hv2, hv1]
    set p := (leVal pBytes.reverse : ℤ)
    set yv := (leVal ys.reverse : ℤ)
    have hmodeq : p - (p - yv) % 256 ^ 32 ≡ p - (p - yv) [ZMOD 256 ^ 32] :=
      (Int.ModEq.refl p).sub (Int.emod_emod_of_dvd _ dvd_rfl)
    calc (p - (p - yv) % 256 ^ 32) % 256 ^ 32
        = (p - (p - yv)) % 256 ^ 32 := hmodeq
      _ = yv % 256 ^ 32 := by ring_nf
      _ = yv := Int.emod_eq_of_lt hy0 hyM
  have hlists : (sub_be pBytes (sub_be pBytes ys)).reverse = ys.reverse := by
    apply leVal_inj
    · rw [List.length_reverse, List.length_reverse,
        sub_be_length _ hs1len, hlen]
    · intro d hd
      exact sub_be_digits _ d (List.mem_reverse.mp hd)
    · intro d hd
      exact hdig d (List.mem_reverse.mp hd)
    · exact_mod_cast hval
  have := congrArg List.reverse hlists
  simpa using this

/-- Amended C4: `negate(negate(P)) == P` for every 64-byte `P` whose
bytes are bytes, except the single encoding whose x-coordinate bytes are
all zero and whose y-coordinate bytes equal the field prime: that `P`
negates to the all-zero identity (whose negation is itself), so the
involution fails there.  The identity negates to itself. -/
theorem negate_negate (P : G1Point) (h64 : P.length = 64)
    (hdig : ∀ d ∈ P, d < 256)
    (hexc : ¬(P.take 32 = List.replicate 32 0 ∧ P.drop 32 = pBytes)) :
    negate_g1_point (negate_g1_point P) = P ∧
    negate_g1_point (List.replicate 64 0) = List.replicate 64 0 := by
  refine ⟨?_, by decide⟩
  by_cases hz : is_g1_zero P
  · unfold negate_g1_point
    rw [if_pos hz, if_pos hz]
  · have hxlen : (P.take 32).length = 32 := by simp [h64]
    have hylen : (P.drop 32).length = 32 := by simp [h64]
    have hydig : ∀ d ∈ P.drop 32, d < 256 :=
      fun d hd => hdig d (List.mem_of_mem_drop hd)
    have hs1len := sub_be_length _ hylen
    have hs1dig := sub_be_digits (P.drop 32)
    have hneg1 : negate_g1_point P =
        P.take 32 ++ sub_be pBytes (P.drop 32) := by
      unfold negate_g1_point
      rw [if_neg hz]
    have hnz2 : ¬ is_g1_zero (P.take 32 ++ sub_be pBytes (P.drop 32)) = true := by
      intro hall
      unfold is_g1_zero at hall
      rw [List.all_append, Bool.and_eq_true] at hall
      have hx0 : P.take 32 = List.replicate 32 0 := by
        apply List.eq_replicate_iff.mpr
        refine ⟨hxlen, ?_⟩
        intro b hb
        simpa using List.all_eq_true.mp hall.1 b hb
      have hs10 : ∀ d ∈ sub_be pBytes (P.drop 32), d = 0 := by
        intro d hd
        simpa using List.all_eq_true.mp hall.2 d hd
      have hval0 : (leVal (sub_be pBytes (P.drop 32)).reverse : ℤ) = 0 := by
        have : leVal (sub_be pBytes (P.drop 32)).reverse = 0 :=
          (leVal_eq_zero _).mpr
            (fun d hd => hs10 d (List.mem_reverse.mp hd))
        exact_mod_cast this
      rw [sub_be_val _ hylen hydig] at hval0
      have hdvd : (256 ^ 32 : ℤ) ∣
          ((leVal pBytes.reverse : ℤ) - leVal (P.drop 32).reverse) :=
        Int.dvd_of_emod_eq_zero hval0
      have hpM : (leVal pBytes.reverse : ℤ) < 256 ^ 32 := by
        have := leVal_lt pBytes.reverse
          (fun d hd => (pBytes_rev_digits d hd).2)
        rw [pBytes_rev_length] at this
        exact_mod_cast this
      have hyM : (leVal (P.drop 32).reverse : ℤ) < 256 ^ 32 := by
        have := leVal_lt (P.drop 32).reverse
          (fun d hd => hydig d (List.mem_reverse.mp hd))
        rw [List.length_reverse, hylen] at this
        exact_mod_cast this
      have hzero : (leVal pBytes.reverse : ℤ) -
          leVal (P.drop 32).reverse = 0 := by
        apply Int.eq_zero_of_abs_lt_dvd hdvd
        rw [abs_sub_lt_iff]
        constructor
        · have : (0 : ℤ) ≤ leVal (P.drop 32).reverse := Int.natCast_nonneg _
          omega
        · have : (0 : ℤ) ≤ leVal pBytes.reverse := Int.natCast_nonneg _
          omega
      have hveq : leVal (P.drop 32).reverse = leVal pBytes.reverse := by
        omega
      have : (P.drop 32).reverse = pBytes.reverse := by
        apply leVal_inj
        · rw [List.length_reverse, hylen, pBytes_rev_length]
        · intro d hd
          exact hydig d (List.mem_reverse.mp hd)
        · intro d hd
          exact (pBytes_rev_digits d hd).2
        · exact hveq
      have hy : P.drop 32 = pBytes := by
        have := congrArg List.reverse this
        simpa using this
      exact hexc ⟨hx0, hy⟩
    rw [hneg1]
    unfold negate_g1_point
    rw [if_neg hnz2, List.take_left' hxlen, List.drop_left' hxlen,
      sub_be_invol _ hylen hydig, List.take_append_drop]

/-- Counterexample to C4 as stated: the 64-byte point with all-zero x and
y equal to the field prime is a well-formed 64-byte point (inside the
claim's quantifier) and is not the identity, yet double negation sends it
to the identity — single negation already does, since `p - p = 0` zeroes
the y bytes and the x bytes are already zero. -/
theorem negate_negate_counterexample :
    (List.replicate 32 0 ++ pBytes : List Nat).length = 64 ∧
    (∀ d ∈ (List.replicate 32 0 ++ pBytes : List Nat), d < 256) ∧
    negate_g1_point (negate_g1_point (List.replicate 32 0 ++ pBytes)) ≠
      List.replicate 32 0 ++ pBytes ∧
    negate_g1_point (List.replicate 32 0 ++ pBytes) =
      List.replicate 64 0 := by
  exact ⟨by decide, by decide, by decide, by decide⟩

/-- Witness for the amended C4 at a concrete non-exceptional point. -/
theorem negate_negate_witness :
    (List.replicate 64 1 : List Nat).length = 64 ∧
    (∀ d ∈ (List.replicate 64 1 : List Nat), d < 256) ∧
    ¬((List.replicate 64 1 : List Nat).take 32 = List.replicate 32 0 ∧
      (List.replicate 64 1 : List Nat).drop 32 = pBytes) ∧
    negate_g1_point (negate_g1_point (List.replicate 64 1)) =
      List.replicate 64 1 :=
  ⟨by decide, by decide, by decide,
    (negate_negate (List.replicate 64 1) (by decide) (by decide)
      (by decide)).1⟩

/-! ## C6 and C2: the Groth16 verification algorithm -/

/-- Refinement target for C6, written from the spec's words (§4.4): the
sequential accumulation `vk_x := add(vk_x, scalarMul(publicInputs[i],
gamma_abc_g1[i+1]))` with no index guard. -/
def vkx_spec_go (rawCall : RawCallFn) (gamma_abc_g1 : List G1Point) :
    List Scalar → Nat → G1Point → Except Err G1Point
  | [], _, vk_x => .ok vk_x
  | input :: rest, i, vk_x =>
      match ec_mul rawCall input (gamma_abc_g1.getD (i + 1) []) with
      | .error e => .error e
      | .ok term =>
          match ec_add rawCall vk_x term with
          | .error e => .error e
          | .ok vk_x2 => vkx_spec_go rawCall gamma_abc_g1 rest (i + 1) vk_x2

/-- Refinement target for C6: `vk_x` starts at `gamma_abc_g1[0]` and
accumulates every public input in order. -/
def vkx_spec (rawCall : RawCallFn) (vk : VerifyingKey)
    (public_inputs : List Scalar) : Except Err G1Point :=
  vkx_spec_go rawCall vk.gamma_abc_g1 public_inputs 0
    (vk.gamma_abc_g1.getD 0 [])

/-- Refinement target for C6: the batched pairing request, as the spec
lists it — the four (G1, G2) pairs `(proof.a, proof.b)`,
`(negate(alpha_g1), beta_g2)`, `(negate(vk_x), gamma_g2)`,
`(negate(proof.c), delta_g2)` concatenated in that order. -/
def pairing_request_spec (proof : ZKProof) (vk : VerifyingKey)
    (vk_x : G1Point) : List Nat :=
  (proof.a ++ proof.b) ++
    (negate_g1_point vk.alpha_g1 ++ vk.beta_g2) ++
    (negate_g1_point vk_x ++ vk.gamma_g2) ++
    (negate_g1_point proof.c ++ vk.delta_g2)

/-- Under the count precondition the source's guarded loop never skips an
input, so it agrees with the guardless specification fold. -/
theorem vk_x_loop_eq_spec (rawCall : RawCallFn) (gamma_abc_g1 : List G1Point) :
    ∀ (inputs : List Scalar) (i : Nat) (acc : G1Point),
      i + inputs.length < gamma_abc_g1.length →
      vk_x_loop rawCall gamma_abc_g1 inputs i acc =
        vkx_spec_go rawCall gamma_abc_g1 inputs i acc := by
  intro inputs
  induction inputs with
  | nil => intro i acc _; rfl
  | cons x rest ih =>
      intro i acc h
      simp only [List.length_cons] at h
      simp only [vk_x_loop, vkx_spec_go]
      rw [if_pos (by omega)]
      cases ec_mul rawCall x (gamma_abc_g1.getD (i + 1) []) with
      | error e => rfl
      | ok term =>
          dsimp only
          cases ec_add rawCall acc term with
          | error e => rfl
          | ok acc2 =>
              dsimp only
              exact ih (i + 1) acc2 (by omega)

/-- C6: `groth16_verify` rejects with the wrong-input-count error, for
every backend (hence before any curve arithmetic), whenever
`len(publicInputs) + 1 ≠ len(gamma_abc_g1)`; under the precondition it
computes `vk_x` by the sequential specification fold and issues the one
pairing request containing the four pairs in order, returning the
interpretation of its 32-byte boolean response. -/
theorem groth16_verify_spec (rawCall : RawCallFn) (proof : ZKProof)
    (vk : VerifyingKey) (public_inputs : List Scalar) :
    (public_inputs.length + 1 ≠ vk.gamma_abc_g1.length →
      groth16_verify rawCall proof vk public_inputs =
        .error .wrongInputCount) ∧
    (public_inputs.length + 1 = vk.gamma_abc_g1.length →
      groth16_verify rawCall proof vk public_inputs =
        match vkx_spec rawCall vk public_inputs with
        | .error e => .error e
        | .ok vk_x =>
            match rawCall 8 (pairing_request_spec proof vk vk_x) with
            | none => .error .pairingFailed
            | some result => .ok (pairing_result_to_bool result)) := by
  constructor
  · intro h
    unfold groth16_verify
    rw [if_pos h]
  · intro h
    unfold groth16_verify
    rw [if_neg (by omega)]
    rw [vk_x_loop_eq_spec rawCall vk.gamma_abc_g1 public_inputs 0
      (vk.gamma_abc_g1.getD 0 []) (by omega)]
    rw [show vkx_spec_go rawCall vk.gamma_abc_g1 public_inputs 0
      (vk.gamma_abc_g1.getD 0 []) = vkx_spec rawCall vk public_inputs
      from rfl]
    cases vkx_spec rawCall vk public_inputs with
    | error e => rfl
    | ok vk_x =>
        dsimp only
        simp only [pairing_request_spec, List.append_assoc]

/-- A fixed demonstration proof used by concrete instances. -/
def demoProof : ZKProof :=
  ⟨List.replicate 64 1, List.replicate 128 1, List.replicate 64 1⟩

/-- A fixed demonstration verifying key with a single `gamma_abc_g1`
entry (zero public inputs). -/
def demoVk : VerifyingKey :=
  ⟨List.replicate 64 1, List.replicate 128 1, List.replicate 128 1,
    List.replicate 128 1, [List.replicate 64 2]⟩

/-- Witness for C6: with one public input against the one-coefficient
key the count check fires for an arbitrary backend, and with zero inputs
the verifier returns the interpreted pairing response (here a 32-byte
response ending in 1, hence `true`). -/
theorem groth16_verify_spec_witness :
    groth16_verify (fun _ _ => none) demoProof demoVk
        [List.replicate 32 3] = .error .wrongInputCount ∧
    groth16_verify (fun _ _ => some (List.replicate 31 0 ++ [1]))
        demoProof demoVk [] = .ok true := by
  constructor
  · exact (groth16_verify_spec (fun _ _ => none) demoProof demoVk
      [List.replicate 32 3]).1 (by decide)
  · exact ((groth16_verify_spec (fun _ _ => some (List.replicate 31 0 ++ [1]))
      demoProof demoVk []).2 (by decide)).trans (by decide)

/-- Amended C2: the pairing precompile's raw response is interpreted as
`len == 32 && last byte == 1`; a response of any other length therefore
yields a completed verification with result `false`, indistinguishable
from a legitimate negative pairing check — only a reverting call is
reported as an error.  A well-formed 32-byte response means success
exactly when its last byte is 1. -/
theorem pairing_response_interpretation (rawCall : RawCallFn)
    (proof : ZKProof) (vk : VerifyingKey) (public_inputs : List Scalar)
    (vk_x : G1Point)
    (hcount : public_inputs.length + 1 = vk.gamma_abc_g1.length)
    (hloop : vk_x_loop rawCall vk.gamma_abc_g1 public_inputs 0
      (vk.gamma_abc_g1.getD 0 []) = .ok vk_x) :
    (∀ response,
      rawCall 8 (pairing_request_spec proof vk vk_x) = some response →
        groth16_verify rawCall proof vk public_inputs =
          .ok (pairing_result_to_bool response) ∧
        (response.length ≠ 32 →
          groth16_verify rawCall proof vk public_inputs = .ok false) ∧
        (response.length = 32 →
          (groth16_verify rawCall proof vk public_inputs = .ok true ↔
            response.getD 31 0 = 1))) ∧
    (rawCall 8 (pairing_request_spec proof vk vk_x) = none →
      groth16_verify rawCall proof vk public_inputs =
        .error .pairingFailed) := by
  have hbody : groth16_verify rawCall proof vk public_inputs =
      match rawCall 8 (pairing_request_spec proof vk vk_x) with
      | none => .error .pairingFailed
      | some result => .ok (pairing_result_to_bool result) := by
    unfold groth16_verify
    rw [if_neg (by omega), hloop]
    simp only [pairing_request_spec, List.append_assoc]
  constructor
  · intro response hresp
    rw [hbody, hresp]
    refine ⟨rfl, ?_, ?_⟩
    · intro hlen
      simp [pairing_result_to_bool, hlen]
    · intro hlen
      simp [pairing_result_to_bool, hlen]
  · intro hresp
    rw [hbody, hresp]

/-- Counterexample to C2 as stated: the backend completes the pairing
call with an empty (length-0) response, and `groth16_verify` reports the
completed result `Ok(false)` — not an error, hence not distinguished from
a pairing check that legitimately returns false. -/
theorem pairing_wrong_length_counterexample :
    (fun _ _ => some ([] : List Nat) : RawCallFn) 8
        (pairing_request_spec demoProof demoVk (List.replicate 64 2)) =
      some [] ∧
    ([] : List Nat).length ≠ 32 ∧
    groth16_verify (fun _ _ => some ([] : List Nat)) demoProof demoVk [] =
      .ok false := by
  refine ⟨rfl, by decide, ?_⟩
  decide

/-- Witness for the amended C2 at the concrete empty-response backend. -/
theorem pairing_response_interpretation_witness :
    groth16_verify (fun _ _ => some (List.replicate 7 0)) demoProof
      demoVk [] = .ok false :=
  (((pairing_response_interpretation (fun _ _ => some (List.replicate 7 0))
    demoProof demoVk [] (List.replicate 64 2) (by decide)
    (by decide)).1 (List.replicate 7 0) rfl).2).1 (by decide)

/-! ## Error classification: the verification path never produces the
gate's policy errors -/

theorem ec_mul_error (rawCall : RawCallFn) (s : Scalar) (p : G1Point)
    (e : Err) (h : ec_mul rawCall s p = .error e) :
    e = .ecMulFailed ∨ e = .invalidEcMulResult := by
  unfold ec_mul at h
  split at h
  · simp at h
  · split at h
    · injection h with h'
      exact Or.inl h'.symm
    · split at h
      · injection h with h'
        exact Or.inr h'.symm
      · simp at h

theorem ec_add_error (rawCall : RawCallFn) (a b : G1Point)
    (e : Err) (h : ec_add rawCall a b = .error e) :
    e = .ecAddFailed ∨ e = .invalidEcAddResult := by
  unfold ec_add at h
  split at h
  · simp at h
  · split at h
    · simp at h
    · split at h
      · injection h with h'
        exact Or.inl h'.symm
      · split at h
        · injection h with h'
          exact Or.inr h'.symm
        · simp at h

theorem vk_x_loop_error (rawCall : RawCallFn) (gamma_abc_g1 : List G1Point) :
    ∀ (inputs : List Scalar) (i : Nat) (acc : G1Point) (e : Err),
      vk_x_loop rawCall gamma_abc_g1 inputs i acc = .error e →
      e = .ecMulFailed ∨ e = .invalidEcMulResult ∨
        e = .ecAddFailed ∨ e = .invalidEcAddResult := by
  intro inputs
  induction inputs with
  | nil => intro i acc e h; simp [vk_x_loop] at h
  | cons x rest ih =>
      intro i acc e h
      simp only [vk_x_loop] at h
      split at h
      · cases hm : ec_mul rawCall x (gamma_abc_g1.getD (i + 1) []) with
        | error e' =>
            rw [hm] at h
            dsimp only at h
            injection h with h'
            subst h'
            rcases ec_mul_error _ _ _ _ hm with h1 | h1
            · exact Or.inl h1
            · exact Or.inr (Or.inl h1)
        | ok term =>
            rw [hm] at h
            dsimp only at h
            cases ha : ec_add rawCall acc term with
            | error e' =>
                rw [ha] at h
                dsimp only at h
                injection h with h'
                subst h'
                rcases ec_add_error _ _ _ _ ha with h1 | h1
                · exact Or.inr (Or.inr (Or.inl h1))
                · exact Or.inr (Or.inr (Or.inr h1))
            | ok acc2 =>
                rw [ha] at h
                dsimp only at h
                exact ih (i + 1) acc2 e h
      · exact ih (i + 1) acc e h

theorem groth16_verify_error (rawCall : RawCallFn) (proof : ZKProof)
    (vk : VerifyingKey) (public_inputs : List Scalar) (e : Err)
    (h : groth16_verify rawCall proof vk public_inputs = .error e) :
    e = .wrongInputCount ∨ e = .ecMulFailed ∨ e = .invalidEcMulResult ∨
      e = .ecAddFailed ∨ e = .invalidEcAddResult ∨ e = .pairingFailed := by
  unfold groth16_verify at h
  split at h
  · injection h with h'
    exact Or.inl h'.symm
  · split at h
    next e' heq =>
        injection h with h'
        subst h'
        rcases vk_x_loop_error _ _ _ _ _ _ heq with h1 | h1 | h1 | h1
        · exact Or.inr (Or.inl h1)
        · exact Or.inr (Or.inr (Or.inl h1))
        · exact Or.inr (Or.inr (Or.inr (Or.inl h1)))
        · exact Or.inr (Or.inr (Or.inr (Or.inr (Or.inl h1))))
    next vkx heq =>
        dsimp only at h
        split at h
        · injection h with h'
          exact Or.inr (Or.inr (Or.inr (Or.inr (Or.inr h'.symm))))
        · simp at h

theorem verify_proof_not_policy (env : Env) (proof_data : List Nat)
    (public_inputs : List Nat) (e : Err)
    (h : verify_proof env proof_data public_inputs = .error e) :
    e ≠ .futureTimestamp ∧ e ≠ .staleProof := by
  unfold verify_proof at h
  cases hd : ZKProof.deserialize proof_data with
  | error e' =>
      rw [hd] at h
      dsimp only at h
      injection h with h'
      subst h'
      unfold ZKProof.deserialize at hd
      split at hd
      · injection hd with h2
        subst h2
        exact ⟨by simp, by simp⟩
      · simp at hd
  | ok proof =>
      rw [hd] at h
      dsimp only at h
      rcases groth16_verify_error _ _ _ _ _ h with
        h1 | h1 | h1 | h1 | h1 | h1 <;>
        subst h1 <;> exact ⟨by simp, by simp⟩

/-! ## C3, C5 and C1: the minting gate -/

/-- C3: every failing path of `mint_with_zk_proof` — input-count,
balance-threshold, nullifier-reuse, freshness, proof verification,
backend failure, or dispatch (CCIP) failure — returns the storage
untouched (in particular the nullifier store); on success the nullifier
was unused and is marked used. -/
theorem mint_error_no_mutation (env : Env) (s : ContractState)
    (toAddr : Nat) (proof_data : List Nat) (public_inputs : List Nat) :
    ((mint_with_zk_proof env s toAddr proof_data public_inputs).1.isOk =
        false →
      (mint_with_zk_proof env s toAddr proof_data public_inputs).2 = s) ∧
    (∀ tid,
      (mint_with_zk_proof env s toAddr proof_data public_inputs).1 =
          .ok tid →
      s.used_nullifiers (public_inputs.getD 0 0) = false ∧
      (mint_with_zk_proof env s toAddr proof_data
        public_inputs).2.used_nullifiers (public_inputs.getD 0 0) =
          true) := by
  unfold mint_with_zk_proof
  dsimp only
  split
  next => exact ⟨fun _ => rfl, fun tid h => by simp at h⟩
  next =>
    split
    next => exact ⟨fun _ => rfl, fun tid h => by simp at h⟩
    next =>
      split
      next => exact ⟨fun _ => rfl, fun tid h => by simp at h⟩
      next hnul =>
        split
        next =>
          split
          next => exact ⟨fun _ => rfl, fun tid h => by simp at h⟩
          next =>
            split
            next => exact ⟨fun _ => rfl, fun tid h => by simp at h⟩
            next => exact ⟨fun _ => rfl, fun tid h => by simp at h⟩
            next =>
              split
              next => exact ⟨fun _ => rfl, fun tid h => by simp at h⟩
              next =>
                refine ⟨fun h => by simp [Except.isOk, Except.toBool] at h,
                  fun tid h => ?_⟩
                refine ⟨by simpa using hnul, ?_⟩
                simp
        next => exact ⟨fun _ => rfl, fun tid h => by simp at h⟩

/-- Witness for C3 at a concrete erroring call (wrong input count). -/
theorem mint_error_no_mutation_witness :
    ((mint_with_zk_proof ⟨fun _ _ => none, demoVk, 100, some 0⟩
        ⟨0, 1, fun _ => 0, fun _ => 0, fun _ => 0, fun _ _ => false,
          fun _ => false, 7⟩ 5 [] []).1.isOk = false) ∧
    (mint_with_zk_proof ⟨fun _ _ => none, demoVk, 100, some 0⟩
        ⟨0, 1, fun _ => 0, fun _ => 0, fun _ => 0, fun _ _ => false,
          fun _ => false, 7⟩ 5 [] []).2 =
      ⟨0, 1, fun _ => 0, fun _ => 0, fun _ => 0, fun _ _ => false,
        fun _ => false, 7⟩ :=
  ⟨rfl, (mint_error_no_mutation ⟨fun _ _ => none, demoVk, 100, some 0⟩
    ⟨0, 1, fun _ => 0, fun _ => 0, fun _ => 0, fun _ _ => false,
      fun _ => false, 7⟩ 5 [] []).1 rfl⟩

/-- C5: with six inputs and a matching balance threshold, a nullifier
already present in the store is rejected as reuse — for every
environment, so regardless of the proof bytes, the clock, and the
backend (verification never runs); and any successful call had an unused
nullifier and inserts exactly it into the store. -/
theorem nullifier_reuse_rejected (env : Env) (s : ContractState)
    (toAddr : Nat) (proof_data : List Nat) (public_inputs : List Nat)
    (hlen : public_inputs.length = 6)
    (hbal : public_inputs.getD 1 0 = s.min_required_balance)
    (hused : s.used_nullifiers (public_inputs.getD 0 0) = true) :
    mint_with_zk_proof env s toAddr proof_data public_inputs =
      (.error .nullifierReuse, s) ∧
    (∀ (env2 : Env) (s2 : ContractState) (tid : Nat),
      (mint_with_zk_proof env2 s2 toAddr proof_data public_inputs).1 =
          .ok tid →
      s2.used_nullifiers (public_inputs.getD 0 0) = false ∧
      ∀ k, (mint_with_zk_proof env2 s2 toAddr proof_data
          public_inputs).2.used_nullifiers k =
        (decide (k = public_inputs.getD 0 0) ||
          s2.used_nullifiers k)) := by
  constructor
  · unfold mint_with_zk_proof
    rw [if_neg (by omega)]
    dsimp only
    rw [if_neg (by omega), if_pos hused]
  · intro env2 s2 tid
    unfold mint_with_zk_proof
    dsimp only
    split
    next => intro h; simp at h
    next =>
      split
      next => intro h; simp at h
      next =>
        split
        next => intro h; simp at h
        next hnul =>
          split
          next =>
            split
            next => intro h; simp at h
            next =>
              split
              next => intro h; simp at h
              next => intro h; simp at h
              next =>
                split
                next => intro h; simp at h
                next =>
                  intro h
                  refine ⟨by simpa using hnul, ?_⟩
                  intro k
                  by_cases hk : k = public_inputs.getD 0 0 <;> simp [hk]
          next => intro h; simp at h

/-- Witness for C5: a store already containing nullifier 1 rejects a
call presenting nullifier 1, leaving the store untouched. -/
theorem nullifier_reuse_rejected_witness :
    mint_with_zk_proof ⟨fun _ _ => none, demoVk, 100, some 0⟩
        ⟨0, 1, fun _ => 0, fun _ => 0, fun _ => 0, fun _ _ => false,
          fun k => decide (k = 1), 7⟩ 5 [] [1, 7, 0, 0, 100, 0] =
      (.error .nullifierReuse,
        ⟨0, 1, fun _ => 0, fun _ => 0, fun _ => 0, fun _ _ => false,
          fun k => decide (k = 1), 7⟩) :=
  (nullifier_reuse_rejected ⟨fun _ _ => none, demoVk, 100, some 0⟩
    ⟨0, 1, fun _ => 0, fun _ => 0, fun _ => 0, fun _ _ => false,
      fun k => decide (k = 1), 7⟩ 5 [] [1, 7, 0, 0, 100, 0]
    (by decide) (by decide) (by decide)).1

/-- Amended C1: with the earlier checks passing, the gate rejects as
FutureTimestamp exactly when `currentTime ≤ timestamp` — equality, i.e.
`age == 0`, is also rejected as from-the-future, not accepted as the
claim states; for `currentTime > timestamp` it rejects as StaleProof
exactly when `age = currentTime - timestamp > 300`, so `age == 300`
passes the freshness check (and the call proceeds to verification, whose
outcomes are never the freshness errors). -/
theorem freshness_check (env : Env) (s : ContractState) (toAddr : Nat)
    (proof_data : List Nat) (public_inputs : List Nat)
    (hlen : public_inputs.length = 6)
    (hbal : public_inputs.getD 1 0 = s.min_required_balance)
    (hnul : s.used_nullifiers (public_inputs.getD 0 0) = false) :
    (env.block_timestamp ≤ public_inputs.getD 4 0 →
      mint_with_zk_proof env s toAddr proof_data public_inputs =
        (.error .futureTimestamp, s)) ∧
    (public_inputs.getD 4 0 < env.block_timestamp →
      MAX_PROOF_AGE < env.block_timestamp - public_inputs.getD 4 0 →
      mint_with_zk_proof env s toAddr proof_data public_inputs =
        (.error .staleProof, s)) ∧
    (public_inputs.getD 4 0 < env.block_timestamp →
      env.block_timestamp - public_inputs.getD 4 0 ≤ MAX_PROOF_AGE →
      (mint_with_zk_proof env s toAddr proof_data public_inputs).1 ≠
        .error .futureTimestamp ∧
      (mint_with_zk_proof env s toAddr proof_data public_inputs).1 ≠
        .error .staleProof) := by
  refine ⟨?_, ?_, ?_⟩
  · intro hle
    unfold mint_with_zk_proof
    rw [if_neg (by omega)]
    dsimp only
    rw [if_neg (by omega), if_neg (by rw [hnul]; simp),
      if_neg (by omega)]
  · intro hlt hage
    unfold mint_with_zk_proof
    rw [if_neg (by omega)]
    dsimp only
    rw [if_neg (by omega), if_neg (by rw [hnul]; simp),
      if_pos (by omega), if_pos (by omega)]
  · intro hlt hage
    unfold mint_with_zk_proof
    rw [if_neg (by omega)]
    dsimp only
    rw [if_neg (by omega), if_neg (by rw [hnul]; simp),
      if_pos (by omega), if_neg (by omega)]
    cases hv : verify_proof env proof_data public_inputs with
    | error e =>
        dsimp only
        have := verify_proof_not_policy env proof_data public_inputs e hv
        exact ⟨by simp [this.1], by simp [this.2]⟩
    | ok b =>
        cases b with
        | false => exact ⟨by simp, by simp⟩
        | true =>
            dsimp only
            cases env.ccip with
            | none => exact ⟨by simp, by simp⟩
            | some id => exact ⟨by simp, by simp⟩

/-- Counterexample to C1 as stated: with `currentTime == timestamp` the
claim says the call is not a FutureTimestamp rejection (and the
freshness check passes with `age == 0`), but the gate rejects it as
FutureTimestamp. -/
theorem freshness_counterexample :
    ¬((⟨fun _ _ => none, demoVk, 100, some 0⟩ : Env).block_timestamp <
        ([1, 7, 0, 0, 100, 0] : List Nat).getD 4 0) ∧
    mint_with_zk_proof ⟨fun _ _ => none, demoVk, 100, some 0⟩
        ⟨0, 1, fun _ => 0, fun _ => 0, fun _ => 0, fun _ _ => false,
          fun _ => false, 7⟩ 5 [] [1, 7, 0, 0, 100, 0] =
      (.error .futureTimestamp,
        ⟨0, 1, fun _ => 0, fun _ => 0, fun _ => 0, fun _ _ => false,
          fun _ => false, 7⟩) := by
  exact ⟨by decide, rfl⟩

/-- Witness for the amended C1: at `currentTime == timestamp` the call
is rejected as FutureTimestamp, and at age 301 as StaleProof. -/
theorem freshness_check_witness :
    mint_with_zk_proof ⟨fun _ _ => none, demoVk, 100, some 0⟩
        ⟨0, 1, fun _ => 0, fun _ => 0, fun _ => 0, fun _ _ => false,
          fun _ => false, 7⟩ 5 [] [1, 7, 0, 0, 100, 0] =
      (.error .futureTimestamp,
        ⟨0, 1, fun _ => 0, fun _ => 0, fun _ => 0, fun _ _ => false,
          fun _ => false, 7⟩) ∧
    mint_with_zk_proof ⟨fun _ _ => none, demoVk, 401, some 0⟩
        ⟨0, 1, fun _ => 0, fun _ => 0, fun _ => 0, fun _ _ => false,
          fun _ => false, 7⟩ 5 [] [1, 7, 0, 0, 100, 0] =
      (.error .staleProof,
        ⟨0, 1, fun _ => 0, fun _ => 0, fun _ => 0, fun _ _ => false,
          fun _ => false, 7⟩) :=
  ⟨(freshness_check ⟨fun _ _ => none, demoVk, 100, some 0⟩
      ⟨0, 1, fun _ => 0, fun _ => 0, fun _ => 0, fun _ _ => false,
        fun _ => false, 7⟩ 5 [] [1, 7, 0, 0, 100, 0]
      (by decide) (by decide) (by decide)).1 (by decide),
    (freshness_check ⟨fun _ _ => none, demoVk, 401, some 0⟩
      ⟨0, 1, fun _ => 0, fun _ => 0, fun _ => 0, fun _ _ => false,
        fun _ => false, 7⟩ 5 [] [1, 7, 0, 0, 100, 0]
      (by decide) (by decide) (by decide)).2.1 (by decide) (by decide)⟩

end FheVesting
